import Mathlib

/-!
Shallow embedding of the certificate-sharing tool's core (the
repository's `index.js`): the djb2 sharding hash, the rate-limit
retry loop, the permission check and grant operations, the
per-record pipeline of `processParticipants`, and the depth-limited
breadth-first search of `findFolderByName`.

Machine integers of the source (the 32-bit hash) are modelled as
`Nat` with explicit `% 2^32`; fallible API calls are modelled as
`Except`-valued oracles supplied per attempt; timestamps and random
jitter are abstract parameters.
-/

namespace CertShare

/-- djb2 step of `hashKey`: `hash = ((hash << 5) + hash) + c` forced to
32 bits (`hash | 0`, final `>>> 0`), i.e. `(h * 33 + c) mod 2^32`. -/
def hashKeyStep (h c : Nat) : Nat := (h * 33 + c) % 4294967296

/-- `hashKey` of the source: djb2 over the character codes of `s`,
seeded with 5381, reduced to an unsigned 32-bit value. -/
def hashKey (s : String) : Nat := s.data.foldl (fun h c => hashKeyStep h c.toNat) 5381

/-- JS `toLowerCase` (kernel-computable model of `String.toLower`). -/
def strToLower (s : String) : String := ⟨s.data.map Char.toLower⟩

/-- ASCII whitespace for trimming. -/
def isWS (c : Char) : Bool := c == ' ' || c == '\t' || c == '\n' || c == '\r'

/-- JS `trim` (kernel-computable model of `String.trim`). -/
def strTrim (s : String) : String :=
  ⟨((s.data.dropWhile isWS).reverse.dropWhile isWS).reverse⟩

/-- JS `s.includes(c)` for one character. -/
def strContainsChar (s : String) (c : Char) : Bool := s.data.contains c

/-- One spreadsheet row as read by `getSpreadsheetDataFlexible`. -/
structure Participant where
  rowIndex : Nat
  nama : String
  email : String
  folderId : String
  isShared : String
  isFolderExists : String
  lastLog : String
deriving DecidableEq

/-- Shard key of `processParticipants`: the cached `FolderId` when
non-empty (truthy), otherwise the lower-cased name. -/
def shardKeyOf (p : Participant) : String :=
  if p.folderId != "" then p.folderId else strToLower p.nama

/-- Shard assignment: `hashKey(key) % shardTotal`. -/
def assignedShard (total : Nat) (p : Participant) : Nat :=
  hashKey (shardKeyOf p) % total

/-- The subset of a record list kept by the worker with shard index `i`. -/
def shardFilter (total i : Nat) (l : List Participant) : List Participant :=
  l.filter (fun p => assignedShard total p == i)

/-- Structured error details extracted from a failed API call
(`extractErrorDetails`): HTTP status, reason string, message. -/
structure ApiError where
  status : Nat
  reason : String
  message : String
deriving DecidableEq

/-- Whether `pat` is a prefix of `s` (character lists). -/
def strHasPre : List Char → List Char → Bool
  | [], _ => true
  | _ :: _, [] => false
  | a :: ps, b :: ss => a == b && strHasPre ps ss

/-- Whether `pat` occurs as a contiguous substring of `s`. -/
def listHasSub (pat : List Char) : List Char → Bool
  | [] => strHasPre pat []
  | c :: rest => strHasPre pat (c :: rest) || listHasSub pat rest

/-- JS `s.includes(pat)` on strings. -/
def strIncludes (s pat : String) : Bool := listHasSub pat.data s.data

/-- `isRetryableRateLimit` of the source: status 429, or 403 with a
rate-limit reason string. -/
def isRetryableRateLimit (e : ApiError) : Bool :=
  if e.status == 429 then true
  else if e.status == 403 then
    strIncludes e.reason "rateLimitExceeded" ||
    strIncludes e.reason "userRateLimitExceeded" ||
    strIncludes e.reason "sharingRateLimitExceeded"
  else false

/-- `wrapError` of the source: an error enriched with the failing
operation's name and its context for diagnostics. -/
structure WrappedError where
  op : String
  ctx : String
  err : ApiError
deriving DecidableEq

/-- Result of a successful retry-wrapped call: the value, the number of
attempts consumed, and the base-plus-jitter sleep (ms) taken before
each retry, in order. -/
structure RetryOk (α : Type) where
  value : α
  attemptsUsed : Nat
  sleeps : List Nat
deriving DecidableEq

/-- The retry loop shared by `findFolderByName` (global search),
`hasPermission` and `grantPermission`: attempt `attempts n` is the
result of the `(n+1)`-th try; after the `n`-th failure (1-based) the
loop sleeps `min cap (2^n * 1000) + jitter n` ms and retries iff the
error is a retryable rate limit and `n < maxAttempts`; otherwise it
raises the error wrapped with operation name and context (and the
number of attempts made). -/
def retryAux {α : Type} (op ctx : String) (maxAttempts cap : Nat) (jitter : Nat → Nat)
    (attempts : Nat → Except ApiError α) (attempt : Nat) (sleeps : List Nat) :
    Except (WrappedError × Nat) (RetryOk α) :=
  match attempts attempt with
  | .ok v => .ok ⟨v, attempt + 1, sleeps⟩
  | .error e =>
    if h : isRetryableRateLimit e = true ∧ attempt + 1 < maxAttempts then
      retryAux op ctx maxAttempts cap jitter attempts (attempt + 1)
        (sleeps ++ [min cap (2 ^ (attempt + 1) * 1000) + jitter (attempt + 1)])
    else .error (⟨op, ctx, e⟩, attempt + 1)
termination_by maxAttempts - attempt
decreasing_by simp_wf; omega

/-- Entry point of the retry loop: attempt counter 0, no sleeps yet. -/
def retryOp {α : Type} (op ctx : String) (maxAttempts cap : Nat) (jitter : Nat → Nat)
    (attempts : Nat → Except ApiError α) : Except (WrappedError × Nat) (RetryOk α) :=
  retryAux op ctx maxAttempts cap jitter attempts 0 []

/-- One access-control entry returned by `drive.permissions.list`. -/
structure Perm where
  emailAddress : String
  role : String
deriving DecidableEq

/-- The match predicate of `hasPermission`: a truthy email address equal
to the target case-insensitively, with the exact role. -/
def permMatches (email role : String) (p : Perm) : Bool :=
  p.emailAddress != "" && strToLower p.emailAddress == strToLower email && p.role == role

/-- `drive.permissions.list` wrapped in the retry loop: ceiling 5
attempts, 60s backoff cap, context `{fileId, email, role}`. -/
def permissionsListRetry (fileId email role : String) (jitter : Nat → Nat)
    (attempts : Nat → Except ApiError (List Perm)) :
    Except (WrappedError × Nat) (RetryOk (List Perm)) :=
  retryOp "drive.permissions.list" (fileId ++ "," ++ email ++ "," ++ role)
    5 60000 jitter attempts

/-- `drive.permissions.create` wrapped in the retry loop: ceiling 6
attempts, 60s backoff cap, context `{fileId, email, role}`. -/
def permissionsCreateRetry (fileId email : String) (jitter : Nat → Nat)
    (attempts : Nat → Except ApiError Perm) :
    Except (WrappedError × Nat) (RetryOk Perm) :=
  retryOp "drive.permissions.create" (fileId ++ "," ++ email ++ ",reader")
    6 60000 jitter attempts

/-- The global `drive.files.list` of `findFolderByName` (no parent
scope) wrapped in the retry loop: ceiling 5 attempts, 60s cap. -/
def filesListRetry (query : String) (jitter : Nat → Nat)
    (attempts : Nat → Except ApiError (List Perm)) :
    Except (WrappedError × Nat) (RetryOk (List Perm)) :=
  retryOp "drive.files.list" query 5 60000 jitter attempts

/-- `hasPermission` of the source: lists permissions through the retry
loop and reports whether an entry matches email (case-insensitively)
and role exactly; any error escaping the retry loop — non-retryable or
ceiling exhausted — is caught and turned into `false`. -/
def hasPermission (fileId email role : String) (jitter : Nat → Nat)
    (attempts : Nat → Except ApiError (List Perm)) : Bool :=
  match permissionsListRetry fileId email role jitter attempts with
  | .ok r => r.value.any (permMatches email role)
  | .error _ => false

/-- Result of `grantPermission`: the dry-run sentinel
`{status: DRY_RUN}` or the created permission entry. -/
inductive GrantOutcome where
  | dryRunSentinel
  | created (perm : Perm)
deriving DecidableEq

/-- `grantPermission` of the source: in simulation mode it returns the
sentinel at once; otherwise it issues `drive.permissions.create`
through the retry loop. The second component counts provider calls
actually issued. -/
def grantPermission (dryRun : Bool) (fileId email : String) (jitter : Nat → Nat)
    (attempts : Nat → Except ApiError Perm) :
    Except (WrappedError × Nat) GrantOutcome × Nat :=
  if dryRun then (.ok .dryRunSentinel, 0)
  else
    match permissionsCreateRetry fileId email jitter attempts with
    | .ok r => (.ok (.created r.value), r.attemptsUsed)
    | .error e => (.error e, e.2)

/-- Target column of a spreadsheet write-back. -/
inductive ColT where
  | folderIdCol
  | isSharedCol
  | isFolderExistsCol
  | lastLogCol
deriving DecidableEq

/-- Success oracle for spreadsheet writes: whether the underlying
`sheets.spreadsheets.values.update` call succeeds. -/
def WriteOracle : Type := Nat → ColT → String → Bool

/-- One attempted write-back of `updateCell`: row, column, value, and
whether the underlying write succeeded (`updateCell` catches a failure
and only prints a warning, so the flag never influences control flow). -/
structure CellUpdate where
  row : Nat
  col : ColT
  value : String
  applied : Bool
deriving DecidableEq

/-- `updateCell` of the source: attempt the write; a failure is caught
and recorded (warning), never raised. -/
def updateCell (w : WriteOracle) (row : Nat) (col : ColT) (value : String) : CellUpdate :=
  ⟨row, col, value, w row col value⟩

/-- The (row, column, value) part of an attempted write-back. -/
def cellVal (u : CellUpdate) : Nat × ColT × String := (u.row, u.col, u.value)

/-- Terminal state of one record in one pass. -/
inductive Outcome where
  | skippedInvalidEmail
  | skippedDuplicate
  | skippedAlreadyShared
  | folderNotFound
  | alreadyGranted
  | granted
  | errorOut (e : WrappedError)
deriving DecidableEq

/-- The run counters of `processParticipants`. -/
structure Stats where
  total : Nat
  done : Nat
  skipped : Nat
  errors : Nat
deriving DecidableEq

/-- Counter increments caused by one record's outcome (`total` always,
then `done` / `skipped` / `errors` as in the source loop). -/
def statsOf : Outcome → Stats
  | .skippedInvalidEmail => ⟨1, 0, 1, 0⟩
  | .skippedDuplicate => ⟨1, 0, 1, 0⟩
  | .skippedAlreadyShared => ⟨1, 0, 1, 0⟩
  | .folderNotFound => ⟨1, 0, 0, 1⟩
  | .alreadyGranted => ⟨1, 0, 1, 0⟩
  | .granted => ⟨1, 1, 0, 0⟩
  | .errorOut _ => ⟨1, 0, 0, 1⟩

/-- Componentwise sum of counters. -/
def addStats (a b : Stats) : Stats :=
  ⟨a.total + b.total, a.done + b.done, a.skipped + b.skipped, a.errors + b.errors⟩

/-- The resolved run configuration plus the summarized outcomes of the
external collaborators that the pipeline consults per record: folder
resolution by name, existing-permission check, and the provider's
response to a grant call (role is fixed to reader). -/
structure Env where
  dryRun : Bool
  maxPerRun : Nat
  shardTotal : Nat
  shardIndex : Nat
  ts : String
  findFolder : String → Option String
  hasPerm : String → String → Bool
  grantResult : String → String → Except ApiError Unit

/-- `formatErrorSummary` of the source. -/
def formatErrorSummary (e : ApiError) : String :=
  "[HTTP " ++ toString e.status ++ "] " ++
    (if e.reason == "" then "unknown" else e.reason) ++ " - " ++ e.message

/-- Dedup key of the loop: lower-cased name, a bar, the email. -/
def dedupKey (nama email : String) : String := strToLower nama ++ "|" ++ email

/-- Folder resolution step of the loop: the cached `FolderId` when
non-empty, else one `findFolderByName` call (second component lists
the resolver invocations made). -/
def resolveFolder (env : Env) (p : Participant) : Option String × List String :=
  if p.folderId != "" then (some p.folderId, []) else (env.findFolder p.nama, [p.nama])

/-- Effects of processing one record: its terminal outcome, the
write-backs attempted, the resolver calls, the permission-list checks
and the provider grant (`drive.permissions.create`) calls issued. -/
structure StepOut where
  outcome : Outcome
  updates : List CellUpdate
  resolves : List String
  permChecks : List (String × String)
  grants : List (String × String)

/-- The loop body of `processParticipants` for one record of the
working batch, given the keys already seen in this pass: email
validation, dedup check, already-shared check, folder resolution,
permission check, grant, and the corresponding write-backs; a grant
error is caught per record (`Error` outcome). Returns the effects and
the updated seen-set. -/
def stepParticipant (env : Env) (w : WriteOracle) (seen : List String)
    (p : Participant) : StepOut × List String :=
  if strContainsChar p.email '@' then
    let key := dedupKey p.nama p.email
    if seen.contains key then
      (⟨.skippedDuplicate,
        [updateCell w p.rowIndex .lastLogCol ("[" ++ env.ts ++ "] SKIP: Duplicate entry")],
        [], [], []⟩, seen)
    else
      let seen1 := key :: seen
      if p.isShared != "" && strToLower p.isShared == "true" then
        (⟨.skippedAlreadyShared,
          [updateCell w p.rowIndex .lastLogCol ("[" ++ env.ts ++ "] SKIP: Already shared")],
          [], [], []⟩, seen1)
      else
        match resolveFolder env p with
        | (none, rs) =>
          (⟨.folderNotFound,
            [updateCell w p.rowIndex .isFolderExistsCol "FALSE",
             updateCell w p.rowIndex .lastLogCol ("[" ++ env.ts ++ "] FOLDER NOT FOUND: " ++ p.nama)],
            rs, [], []⟩, seen1)
        | (some fid, rs) =>
          let base := [updateCell w p.rowIndex .isFolderExistsCol "TRUE"] ++
            (if p.folderId == "" then [updateCell w p.rowIndex .folderIdCol fid] else [])
          if env.hasPerm fid p.email then
            (⟨.alreadyGranted,
              base ++ [updateCell w p.rowIndex .isSharedCol "TRUE",
                updateCell w p.rowIndex .lastLogCol ("[" ++ env.ts ++ "] SKIP: Already has reader access")],
              rs, [(fid, p.email)], []⟩, seen1)
          else if env.dryRun then
            (⟨.granted,
              base ++ [updateCell w p.rowIndex .isSharedCol "TRUE",
                updateCell w p.rowIndex .lastLogCol ("[" ++ env.ts ++ "] DRY_RUN reader → " ++ p.email)],
              rs, [(fid, p.email)], []⟩, seen1)
          else
            match env.grantResult fid p.email with
            | .ok _ =>
              (⟨.granted,
                base ++ [updateCell w p.rowIndex .isSharedCol "TRUE",
                  updateCell w p.rowIndex .lastLogCol ("[" ++ env.ts ++ "] GRANTED reader → " ++ p.email)],
                rs, [(fid, p.email)], [(fid, p.email)]⟩, seen1)
            | .error e =>
              let we : WrappedError := ⟨"drive.permissions.create", fid ++ "," ++ p.email ++ ",reader", e⟩
              (⟨.errorOut we,
                base ++ [updateCell w p.rowIndex .isSharedCol "FALSE",
                  updateCell w p.rowIndex .lastLogCol
                    ("[" ++ env.ts ++ "] ERROR: op=" ++ we.op ++ " " ++ formatErrorSummary e)],
                rs, [(fid, p.email)], [(fid, p.email)]⟩, seen1)
  else
    (⟨.skippedInvalidEmail,
      [updateCell w p.rowIndex .isSharedCol "FALSE",
       updateCell w p.rowIndex .lastLogCol ("[" ++ env.ts ++ "] SKIP: INVALID EMAIL " ++ p.email)],
      [], [], []⟩, seen)

/-- Seen-set left behind by one record. -/
def stepSeen (env : Env) (w : WriteOracle) (seen : List String) (p : Participant) : List String :=
  (stepParticipant env w seen p).2

/-- Seen-set left behind by a list of records, in order. -/
def seenAfter (env : Env) (w : WriteOracle) (seen : List String) :
    List Participant → List String
  | [] => seen
  | p :: rest => seenAfter env w (stepSeen env w seen p) rest

/-- Aggregate result of one pass. -/
structure RunOut where
  outcomes : List (Nat × Outcome)
  updates : List CellUpdate
  resolves : List String
  permChecks : List (String × String)
  grants : List (String × String)
  stats : Stats

/-- The record loop of `processParticipants`: sequential processing,
threading the seen-set, concatenating effects and summing counters. -/
def runLoop (env : Env) (w : WriteOracle) (seen : List String) :
    List Participant → RunOut
  | [] => ⟨[], [], [], [], [], ⟨0, 0, 0, 0⟩⟩
  | p :: rest =>
    let so := (stepParticipant env w seen p).1
    let tail := runLoop env w (stepSeen env w seen p) rest
    ⟨(p.rowIndex, so.outcome) :: tail.outcomes, so.updates ++ tail.updates,
     so.resolves ++ tail.resolves, so.permChecks ++ tail.permChecks,
     so.grants ++ tail.grants, addStats (statsOf so.outcome) tail.stats⟩

/-- Normalization of one row: trim the name, trim and lower-case the
email. -/
def normalizeP (p : Participant) : Participant :=
  { p with nama := strTrim p.nama, email := strToLower (strTrim p.email) }

/-- Normalization stage: normalized rows whose name and email are
non-empty (truthy). -/
def stage1 (l : List Participant) : List Participant :=
  (l.map normalizeP).filter (fun p => p.nama != "" && p.email != "")

/-- Already-shared filter stage: keep only records whose `isShared` is
not `"true"` case-insensitively. -/
def stage2 (l : List Participant) : List Participant :=
  (stage1 l).filter (fun p => strToLower p.isShared != "true")

/-- Sharding stage: when `shardTotal > 0`, keep only the worker's own
shard. -/
def stage3 (env : Env) (l : List Participant) : List Participant :=
  if env.shardTotal > 0 then
    (stage2 l).filter (fun p => assignedShard env.shardTotal p == env.shardIndex)
  else stage2 l

/-- `processParticipants` of the source: normalization, already-shared
filter, sharding, `maxPerRun` truncation, then the record loop with an
empty seen-set. -/
def processParticipants (env : Env) (w : WriteOracle) (l : List Participant) : RunOut :=
  runLoop env w [] ((stage3 env l).take env.maxPerRun)

/-- One folder of the storage provider: identifier and display name. -/
structure DriveNode where
  id : String
  name : String
deriving DecidableEq

/-- The provider's folder graph: the list of child folders of each
folder identifier (`files.list` with a parent query). -/
def Drive : Type := List (String × List DriveNode)

/-- Child folders of `id` (empty when unknown). -/
def childrenOf (d : Drive) (id : String) : List DriveNode :=
  (List.lookup id d).getD []

/-- The queue-based breadth-first search of `findFolderByName` under a
parent scope: pop `(id, depth)`; skip it when `depth > 3`; list its
children, return the first child whose lower-cased name equals the
target, else enqueue the children at `depth + 1` when `depth < 3`.
`fuel` bounds the recursion (the source loop terminates because the
depth bound keeps the queue finite). The second component records the
`(id, depth)` pairs whose children were listed and name-matched. The
error handling of `listSubfolders` (retryable errors re-queue the node,
others abandon the branch) is abstracted as a successful listing. -/
def bfsFind (d : Drive) (tl : String) :
    Nat → List (String × Nat) → Option String × List (String × Nat)
  | 0, _ => (none, [])
  | _ + 1, [] => (none, [])
  | fuel + 1, (id, dep) :: rest =>
    if 3 < dep then bfsFind d tl fuel rest
    else
      let children := childrenOf d id
      match children.find? (fun c => strToLower c.name == tl) with
      | some hit => (some hit.id, [(id, dep)])
      | none =>
        let out := bfsFind d tl fuel
          (rest ++ (if dep < 3 then children.map (fun c => (c.id, dep + 1)) else []))
        (out.1, (id, dep) :: out.2)

/-- `findFolderByName` with a parent scope: empty target returns null,
otherwise run the breadth-first search from the parent at depth 0 with
the lower-cased target name. -/
def findFolderByNameBFS (d : Drive) (name parentFolderId : String) (fuel : Nat) :
    Option String :=
  if name == "" then none
  else (bfsFind d (strToLower name) fuel [(parentFolderId, 0)]).1

/-- The base-plus-jitter sleeps the retry loop takes for `k` retryable
failures starting at attempt counter `a`: the `j`-th entry is the sleep
after failed attempt `a + j + 1` (1-based). -/
def backoffSleeps (cap : Nat) (jitter : Nat → Nat) (a k : Nat) : List Nat :=
  (List.range k).map (fun j => min cap (2 ^ (a + j + 1) * 1000) + jitter (a + j + 1))

/-- A write oracle under which every spreadsheet write succeeds. -/
def wAll : WriteOracle := fun _ _ _ => true

/-- A write oracle under which exactly the `isShared` writes fail. -/
def wNoShared : WriteOracle := fun _ c _ => c != ColT.isSharedCol

/-- Concrete environment: production mode, folder resolution always
finds `FID`, no existing permission, grants succeed. -/
def envBase : Env :=
  { dryRun := false, maxPerRun := 300, shardTotal := 0, shardIndex := 0, ts := "TS",
    findFolder := fun _ => some "FID", hasPerm := fun _ _ => false,
    grantResult := fun _ _ => .ok () }

/-- Concrete environment: folder resolution never finds a folder. -/
def envNoFolder : Env := { envBase with findFolder := fun _ => none }

/-- Concrete environment: simulation mode active. -/
def envDry : Env := { envBase with dryRun := true }

/-- Concrete row: valid email, nothing cached. -/
def pAlice : Participant := ⟨2, "Alice", "alice@ex.com", "", "", "", ""⟩

/-- Concrete row: same name and email as `pAlice`, next row. -/
def pAlice2 : Participant := ⟨3, "Alice", "alice@ex.com", "", "", "", ""⟩

/-- Concrete row: email without an at sign. -/
def pBad : Participant := ⟨2, "Alice", "bademail", "", "", "", ""⟩

/-- Concrete row: duplicate of `pBad`, next row. -/
def pBad2 : Participant := ⟨3, "Alice", "bademail", "", "", "", ""⟩

/-- Concrete row already marked shared. -/
def pShared : Participant := ⟨4, "Bob", "bob@ex.com", "", "TRUE", "", ""⟩

/-- Concrete row whose name is blank after trimming. -/
def pEmptyName : Participant := ⟨5, "   ", "x@y.z", "", "", "", ""⟩

/-- Concrete attempt oracle: one retryable 429 failure, then success. -/
def wAttempts : Nat → Except ApiError (List Perm) :=
  fun n => if n == 0 then .error ⟨429, "", ""⟩ else .ok []

/-- Concrete attempt oracle: every attempt fails with a retryable 429. -/
def wAttemptsFail : Nat → Except ApiError (List Perm) :=
  fun _ => .error ⟨429, "rateLimitExceeded", "quota"⟩

/-- Concrete folder graph: a chain `root → a1 → b2 → c3 → t4`, where
only `t4` (four levels below `root`) is named `Deep Target`. -/
def exDrive : Drive :=
  [("root", [⟨"a1", "Alpha"⟩]), ("a1", [⟨"b2", "Beta"⟩]),
   ("b2", [⟨"c3", "Gamma"⟩]), ("c3", [⟨"t4", "Deep Target"⟩])]

/-- Scan the folders of one breadth-first level in order and return the
identifier of the first child whose lower-cased name equals the target,
or none when no child of the level matches. -/
def scanLevel (d : Drive) (tl : String) : List String → Option String
  | [] => none
  | id :: rest =>
    match (childrenOf d id).find? (fun c => strToLower c.name == tl) with
    | some hit => some hit.id
    | none => scanLevel d tl rest

/-- Identifiers of the next breadth-first level: the children of the
level's folders, concatenated in order. -/
def levelIds (d : Drive) : List String → List String
  | [] => []
  | id :: rest => (childrenOf d id).map (fun c => c.id) ++ levelIds d rest

/-- The `i`-th breadth-first level below the starting level. -/
def levelsFrom (d : Drive) (A : List String) : Nat → List String
  | 0 => A
  | n + 1 => levelIds d (levelsFrom d A n)

/-- Modelled from the spec: the declarative breadth-first, depth-limited
search — scan the current level's folders in order for the first child
with the target name; when the level has no match and `k` further
levels may still be expanded, continue with the already-discovered
nodes `B` followed by the level's children; with no levels left, return
null. `bfsSpec d tl 3 [parent] []` is the first case-insensitive exact
match in breadth-first order among the children of nodes at most 3
levels below the parent, or null when no such match exists. -/
def bfsSpec (d : Drive) (tl : String) : Nat → List String → List String → Option String
  | k, A, B =>
    match scanLevel d tl A with
    | some fid => some fid
    | none =>
      match k with
      | 0 => none
      | k2 + 1 => bfsSpec d tl k2 (B ++ levelIds d A) []

/-- Fuel sufficient for the queue-based search to complete the phases
described by `bfsSpec` (one unit per popped node, one for the final
empty-queue step). -/
def bfsSpecFuel (d : Drive) : Nat → List String → List String → Nat
  | 0, A, B => A.length + B.length + 1
  | k + 1, A, B => A.length + bfsSpecFuel d k (B ++ levelIds d A) []

/-! ### Helper lemmas on the retry loop -/

theorem retryAux_ok {α : Type} (op ctx : String) (maxAttempts cap : Nat) (jitter : Nat → Nat)
    (attempts : Nat → Except ApiError α) (a : Nat) (sleeps : List Nat) (v : α)
    (hv : attempts a = Except.ok v) :
    retryAux op ctx maxAttempts cap jitter attempts a sleeps = Except.ok ⟨v, a + 1, sleeps⟩ := by
  rw [retryAux, hv]

theorem retryAux_retry {α : Type} (op ctx : String) (maxAttempts cap : Nat) (jitter : Nat → Nat)
    (attempts : Nat → Except ApiError α) (a : Nat) (sleeps : List Nat) (e : ApiError)
    (he : attempts a = Except.error e) (hr : isRetryableRateLimit e = true)
    (hlt : a + 1 < maxAttempts) :
    retryAux op ctx maxAttempts cap jitter attempts a sleeps =
      retryAux op ctx maxAttempts cap jitter attempts (a + 1)
        (sleeps ++ [min cap (2 ^ (a + 1) * 1000) + jitter (a + 1)]) := by
  conv_lhs => rw [retryAux, he]
  simp [hr, hlt]

theorem retryAux_stop {α : Type} (op ctx : String) (maxAttempts cap : Nat) (jitter : Nat → Nat)
    (attempts : Nat → Except ApiError α) (a : Nat) (sleeps : List Nat) (e : ApiError)
    (he : attempts a = Except.error e)
    (hstop : ¬(isRetryableRateLimit e = true ∧ a + 1 < maxAttempts)) :
    retryAux op ctx maxAttempts cap jitter attempts a sleeps =
      Except.error (⟨op, ctx, e⟩, a + 1) := by
  rw [retryAux, he]
  simp [hstop]

theorem backoffSleeps_succ (cap : Nat) (jitter : Nat → Nat) (a k : Nat) :
    backoffSleeps cap jitter a (k + 1) =
      (min cap (2 ^ (a + 1) * 1000) + jitter (a + 1)) :: backoffSleeps cap jitter (a + 1) k := by
  have h : ∀ j : Nat, a + Nat.succ j + 1 = a + 1 + j + 1 := fun j => by omega
  simp [backoffSleeps, List.range_succ_eq_map, List.map_map, Function.comp, h]

theorem retryAux_success {α : Type} (op ctx : String) (maxAttempts cap : Nat)
    (jitter : Nat → Nat) (attempts : Nat → Except ApiError α) (v : α) :
    ∀ (k a : Nat) (sleeps : List Nat),
      (∀ i, i < k → ∃ e, attempts (a + i) = Except.error e ∧ isRetryableRateLimit e = true) →
      attempts (a + k) = Except.ok v → a + k + 1 ≤ maxAttempts →
      retryAux op ctx maxAttempts cap jitter attempts a sleeps =
        Except.ok ⟨v, a + k + 1, sleeps ++ backoffSleeps cap jitter a k⟩ := by
  intro k
  induction k with
  | zero =>
    intro a sleeps _ hok _
    rw [retryAux_ok op ctx maxAttempts cap jitter attempts a sleeps v (by simpa using hok)]
    simp [backoffSleeps]
  | succ m ih =>
    intro a sleeps hfail hok hle
    obtain ⟨e, he, hr⟩ := hfail 0 (Nat.succ_pos m)
    rw [retryAux_retry op ctx maxAttempts cap jitter attempts a sleeps e
      (by simpa using he) hr (by omega)]
    have hfail2 : ∀ i, i < m →
        ∃ e2, attempts (a + 1 + i) = Except.error e2 ∧ isRetryableRateLimit e2 = true := by
      intro i hi
      have h1 : a + 1 + i = a + (i + 1) := by omega
      rw [h1]
      exact hfail (i + 1) (by omega)
    have hok2 : attempts (a + 1 + m) = Except.ok v := by
      have h1 : a + 1 + m = a + (m + 1) := by omega
      rw [h1]; exact hok
    rw [ih (a + 1) _ hfail2 hok2 (by omega)]
    rw [backoffSleeps_succ]
    have h2 : a + 1 + m + 1 = a + (m + 1) + 1 := by omega
    simp [h2]

theorem retryAux_exhaust {α : Type} (op ctx : String) (maxAttempts cap : Nat)
    (jitter : Nat → Nat) (attempts : Nat → Except ApiError α) :
    ∀ (n a : Nat) (sleeps : List Nat), 1 ≤ n → a + n = maxAttempts →
      (∀ i, i < n → ∃ e, attempts (a + i) = Except.error e ∧ isRetryableRateLimit e = true) →
      ∃ e, attempts (maxAttempts - 1) = Except.error e ∧ isRetryableRateLimit e = true ∧
        retryAux op ctx maxAttempts cap jitter attempts a sleeps =
          Except.error (⟨op, ctx, e⟩, maxAttempts) := by
  intro n
  induction n with
  | zero => intro a sleeps h1; omega
  | succ m ih =>
    intro a sleeps _ hsum hfail
    obtain ⟨e, he, hr⟩ := hfail 0 (Nat.succ_pos m)
    by_cases hm : m = 0
    · subst hm
      have ha : a = maxAttempts - 1 := by omega
      refine ⟨e, by rw [← ha]; simpa using he, hr, ?_⟩
      rw [retryAux_stop op ctx maxAttempts cap jitter attempts a sleeps e
        (by simpa using he) (by omega)]
      have h2 : a + 1 = maxAttempts := by omega
      rw [h2]
    · have hm1 : 1 ≤ m := by omega
      rw [retryAux_retry op ctx maxAttempts cap jitter attempts a sleeps e
        (by simpa using he) hr (by omega)]
      refine ih (a + 1) _ hm1 (by omega) ?_
      intro i hi
      have h1 : a + 1 + i = a + (i + 1) := by omega
      rw [h1]
      exact hfail (i + 1) (by omega)

/-! ### C2: sharding is a deterministic partition -/

/-- **C2.** For every `shardTotal ≥ 1`, the shard assignment
`hashKey(shardKey) % shardTotal` (shard key: `folderId` when non-empty,
else the lower-cased name) maps every record of any normalized list to
exactly one shard index below `shardTotal`; the shard-filtered subsets
are subsets of the list, any two distinct indices' subsets are
disjoint, and the assignment is a pure function of the shard key. -/
theorem shardingPartition (total : Nat) (h1 : 1 ≤ total) (l : List Participant) :
    (∀ i : Nat, ∀ p ∈ shardFilter total i l, p ∈ l)
  ∧ (∀ p ∈ l, assignedShard total p < total
      ∧ ∃! i : Nat, i < total ∧ p ∈ shardFilter total i l)
  ∧ (∀ i j : Nat, i ≠ j → ∀ p, p ∈ shardFilter total i l → p ∈ shardFilter total j l → False)
  ∧ (∀ p q : Participant, shardKeyOf p = shardKeyOf q →
      assignedShard total p = assignedShard total q) := by
  have hmem : ∀ (i : Nat) (p : Participant),
      p ∈ shardFilter total i l ↔ p ∈ l ∧ assignedShard total p = i := by
    intro i p
    simp [shardFilter, List.mem_filter]
  refine ⟨?_, ?_, ?_, ?_⟩
  · intro i p hp
    exact ((hmem i p).mp hp).1
  · intro p hp
    have hlt : assignedShard total p < total := Nat.mod_lt _ (by omega)
    refine ⟨hlt, assignedShard total p, ⟨hlt, (hmem _ p).mpr ⟨hp, rfl⟩⟩, ?_⟩
    intro j hj
    exact (((hmem j p).mp hj.2).2).symm
  · intro i j hij p hpi hpj
    exact hij (((hmem i p).mp hpi).2 ▸ ((hmem j p).mp hpj).2)
  · intro p q hk
    simp [assignedShard, hk]

/-- Witness for C2 at `shardTotal = 2` and the concrete record
`pAlice`. -/
theorem shardingPartitionWitness :
    assignedShard 2 pAlice < 2 ∧ ∃! i : Nat, i < 2 ∧ pAlice ∈ shardFilter 2 i [pAlice] := by
  exact (shardingPartition 2 (by omega) [pAlice]).2.1 pAlice (by simp)

/-! ### C4: retry policy, attempt ceilings and backoff -/

/-- **C4.** For each retry-wrapped operation — permission listing and
global folder search with attempt ceiling 5, grant creation with
ceiling 6 — if the first `k` attempts fail with retryable rate-limit
errors and attempt `k + 1` succeeds (`k` below the ceiling), the
operation returns the success using exactly `k + 1 ≤ N` attempts,
having slept `min 60000 (2^n * 1000) + jitter n` milliseconds before
the retry after failed attempt `n` (first conjunct gives the sleep
schedule); if all `N` attempts fail retryably, the operation raises a
terminal error carrying the operation name and context. -/
theorem retryPolicyBackoff :
    (∀ (jitter : Nat → Nat) (k n : Nat), n < k →
        (backoffSleeps 60000 jitter 0 k).get? n =
          some (min 60000 (2 ^ (n + 1) * 1000) + jitter (n + 1)))
  ∧ (∀ (fileId email role : String) (jitter : Nat → Nat)
        (attempts : Nat → Except ApiError (List Perm)) (k : Nat) (v : List Perm),
        (∀ i, i < k → ∃ e, attempts i = Except.error e ∧ isRetryableRateLimit e = true) →
        attempts k = Except.ok v → k < 5 →
        permissionsListRetry fileId email role jitter attempts =
          Except.ok ⟨v, k + 1, backoffSleeps 60000 jitter 0 k⟩)
  ∧ (∀ (fileId email : String) (jitter : Nat → Nat)
        (attempts : Nat → Except ApiError Perm) (k : Nat) (v : Perm),
        (∀ i, i < k → ∃ e, attempts i = Except.error e ∧ isRetryableRateLimit e = true) →
        attempts k = Except.ok v → k < 6 →
        permissionsCreateRetry fileId email jitter attempts =
          Except.ok ⟨v, k + 1, backoffSleeps 60000 jitter 0 k⟩)
  ∧ (∀ (query : String) (jitter : Nat → Nat)
        (attempts : Nat → Except ApiError (List Perm)) (k : Nat) (v : List Perm),
        (∀ i, i < k → ∃ e, attempts i = Except.error e ∧ isRetryableRateLimit e = true) →
        attempts k = Except.ok v → k < 5 →
        filesListRetry query jitter attempts =
          Except.ok ⟨v, k + 1, backoffSleeps 60000 jitter 0 k⟩)
  ∧ (∀ (fileId email role : String) (jitter : Nat → Nat)
        (attempts : Nat → Except ApiError (List Perm)),
        (∀ i, i < 5 → ∃ e, attempts i = Except.error e ∧ isRetryableRateLimit e = true) →
        ∃ e, attempts 4 = Except.error e ∧
          permissionsListRetry fileId email role jitter attempts =
            Except.error (⟨"drive.permissions.list",
              fileId ++ "," ++ email ++ "," ++ role, e⟩, 5))
  ∧ (∀ (fileId email : String) (jitter : Nat → Nat)
        (attempts : Nat → Except ApiError Perm),
        (∀ i, i < 6 → ∃ e, attempts i = Except.error e ∧ isRetryableRateLimit e = true) →
        ∃ e, attempts 5 = Except.error e ∧
          permissionsCreateRetry fileId email jitter attempts =
            Except.error (⟨"drive.permissions.create",
              fileId ++ "," ++ email ++ ",reader", e⟩, 6))
  ∧ (∀ (query : String) (jitter : Nat → Nat)
        (attempts : Nat → Except ApiError (List Perm)),
        (∀ i, i < 5 → ∃ e, attempts i = Except.error e ∧ isRetryableRateLimit e = true) →
        ∃ e, attempts 4 = Except.error e ∧
          filesListRetry query jitter attempts =
            Except.error (⟨"drive.files.list", query, e⟩, 5)) := by
  refine ⟨?_, ?_, ?_, ?_, ?_, ?_, ?_⟩
  · intro jitter k n hn
    simp only [backoffSleeps, List.get?_eq_getElem?, List.getElem?_map,
      List.getElem?_range hn, Option.map_some', Nat.zero_add]
  · intro fileId email role jitter attempts k v hfail hok hk
    have h := retryAux_success "drive.permissions.list"
      (fileId ++ "," ++ email ++ "," ++ role) 5 60000 jitter attempts v k 0 []
      (by simpa using hfail) (by simpa using hok) (by omega)
    simpa [permissionsListRetry, retryOp] using h
  · intro fileId email jitter attempts k v hfail hok hk
    have h := retryAux_success "drive.permissions.create"
      (fileId ++ "," ++ email ++ ",reader") 6 60000 jitter attempts v k 0 []
      (by simpa using hfail) (by simpa using hok) (by omega)
    simpa [permissionsCreateRetry, retryOp] using h
  · intro query jitter attempts k v hfail hok hk
    have h := retryAux_success "drive.files.list" query 5 60000 jitter attempts v k 0 []
      (by simpa using hfail) (by simpa using hok) (by omega)
    simpa [filesListRetry, retryOp] using h
  · intro fileId email role jitter attempts hfail
    have h := retryAux_exhaust "drive.permissions.list"
      (fileId ++ "," ++ email ++ "," ++ role) 5 60000 jitter attempts 5 0 []
      (by omega) (by omega) (by simpa using hfail)
    obtain ⟨e, he, _, heq⟩ := h
    exact ⟨e, he, by simpa [permissionsListRetry, retryOp] using heq⟩
  · intro fileId email jitter attempts hfail
    have h := retryAux_exhaust "drive.permissions.create"
      (fileId ++ "," ++ email ++ ",reader") 6 60000 jitter attempts 6 0 []
      (by omega) (by omega) (by simpa using hfail)
    obtain ⟨e, he, _, heq⟩ := h
    exact ⟨e, he, by simpa [permissionsCreateRetry, retryOp] using heq⟩
  · intro query jitter attempts hfail
    have h := retryAux_exhaust "drive.files.list" query 5 60000 jitter attempts 5 0 []
      (by omega) (by omega) (by simpa using hfail)
    obtain ⟨e, he, _, heq⟩ := h
    exact ⟨e, he, by simpa [filesListRetry, retryOp] using heq⟩

/-- Witness for C4: with one retryable 429 failure then success and
zero jitter, `permissionsListRetry` succeeds on attempt 2 after a
2000 ms sleep. -/
theorem retryPolicyBackoffWitness :
    permissionsListRetry "f" "e" "reader" (fun _ => 0) wAttempts =
      Except.ok ⟨[], 2, [2000]⟩ := by
  have h := retryPolicyBackoff.2.1 "f" "e" "reader" (fun _ => 0) wAttempts 1 []
    (by
      intro i hi
      have hi0 : i = 0 := by omega
      subst hi0
      exact ⟨⟨429, "", ""⟩, rfl, rfl⟩)
    rfl (by omega)
  simpa [backoffSleeps] using h

/-! ### C8: hasPermission fails open -/

/-- **C8.** `hasPermission` returns `false` whenever the permission
listing fails — by exhausting the 5-attempt ceiling on retryable
errors, or by a non-retryable error, or by any error escaping the
retry loop — and returns `true` only when a successfully listed entry
matches the email case-insensitively with the exact role. -/
theorem hasPermissionFailOpen (fileId email role : String) (jitter : Nat → Nat)
    (attempts : Nat → Except ApiError (List Perm)) :
    ((∀ i, i < 5 → ∃ e, attempts i = Except.error e ∧ isRetryableRateLimit e = true) →
        hasPermission fileId email role jitter attempts = false)
  ∧ (∀ e, attempts 0 = Except.error e → isRetryableRateLimit e = false →
        hasPermission fileId email role jitter attempts = false)
  ∧ (∀ ew, permissionsListRetry fileId email role jitter attempts = Except.error ew →
        hasPermission fileId email role jitter attempts = false)
  ∧ (∀ r, permissionsListRetry fileId email role jitter attempts = Except.ok r →
        hasPermission fileId email role jitter attempts = r.value.any (permMatches email role))
  ∧ (hasPermission fileId email role jitter attempts = true →
        ∃ r, permissionsListRetry fileId email role jitter attempts = Except.ok r
          ∧ r.value.any (permMatches email role) = true) := by
  have herr : ∀ ew, permissionsListRetry fileId email role jitter attempts = Except.error ew →
      hasPermission fileId email role jitter attempts = false := by
    intro ew hew
    simp [hasPermission, hew]
  refine ⟨?_, ?_, herr, ?_, ?_⟩
  · intro hfail
    obtain ⟨e, _, _, heq⟩ := retryAux_exhaust "drive.permissions.list"
      (fileId ++ "," ++ email ++ "," ++ role) 5 60000 jitter attempts 5 0 []
      (by omega) (by omega) (by simpa using hfail)
    exact herr _ (by simpa [permissionsListRetry, retryOp] using heq)
  · intro e he hnr
    have heq := retryAux_stop "drive.permissions.list"
      (fileId ++ "," ++ email ++ "," ++ role) 5 60000 jitter attempts 0 [] e he
      (by simp [hnr])
    exact herr _ (by simpa [permissionsListRetry, retryOp] using heq)
  · intro r hr
    simp [hasPermission, hr]
  · intro htrue
    unfold hasPermission at htrue
    rcases hres : permissionsListRetry fileId email role jitter attempts with ew | r
    · rw [hres] at htrue; simp at htrue
    · rw [hres] at htrue
      exact ⟨r, rfl, htrue⟩

/-- Witness for C8: with every attempt failing retryably,
`hasPermission` evaluates to `false`. -/
theorem hasPermissionFailOpenWitness :
    hasPermission "f" "e" "reader" (fun _ => 0) wAttemptsFail = false := by
  exact (hasPermissionFailOpen "f" "e" "reader" (fun _ => 0) wAttemptsFail).1
    (by
      intro i _
      exact ⟨⟨429, "rateLimitExceeded", "quota"⟩, rfl, by decide⟩)

/-! ### C3: BFS depth behaviour of findFolderByName -/

theorem bfsFind_props (d : Drive) (tl : String) :
    ∀ (fuel : Nat) (q : List (String × Nat)), (∀ pr ∈ q, pr.2 ≤ 3) →
      (∀ pr ∈ (bfsFind d tl fuel q).2, pr.2 ≤ 3)
    ∧ (∀ fid, (bfsFind d tl fuel q).1 = some fid →
        ∃ pr ∈ (bfsFind d tl fuel q).2, ∃ c ∈ childrenOf d pr.1,
          strToLower c.name = tl ∧ c.id = fid) := by
  intro fuel
  induction fuel with
  | zero =>
    intro q hq
    simp [bfsFind]
  | succ n ih =>
    intro q hq
    match q with
    | [] => simp [bfsFind]
    | (id, dep) :: rest =>
      have hdep : ¬ 3 < dep := by
        have := hq (id, dep) (List.mem_cons_self _ _)
        omega
      have hrest : ∀ pr ∈ rest, pr.2 ≤ 3 :=
        fun pr hpr => hq pr (List.mem_cons_of_mem _ hpr)
      cases hfind : (childrenOf d id).find? (fun c => strToLower c.name == tl) with
      | some hit =>
        constructor
        · intro pr hpr
          simp [bfsFind, hdep, hfind] at hpr
          subst hpr
          exact hq (id, dep) (List.mem_cons_self _ _)
        · intro fid hfid
          simp [bfsFind, hdep, hfind] at hfid
          refine ⟨(id, dep), by simp [bfsFind, hdep, hfind], hit,
            List.mem_of_find?_eq_some hfind, ?_, hfid⟩
          have := List.find?_some hfind
          simpa using this
      | none =>
        have hq2 : ∀ pr ∈ rest ++
            (if dep < 3 then (childrenOf d id).map (fun c => (c.id, dep + 1)) else []),
            pr.2 ≤ 3 := by
          intro pr hpr
          rcases List.mem_append.mp hpr with h | h
          · exact hrest pr h
          · by_cases hd3 : dep < 3
            · rw [if_pos hd3] at h
              obtain ⟨c, _, hc⟩ := List.mem_map.mp h
              have h2 : pr.2 = dep + 1 := by rw [← hc]
              omega
            · rw [if_neg hd3] at h
              simp at h
        have hres := ih _ hq2
        constructor
        · intro pr hpr
          simp only [bfsFind, hdep, hfind] at hpr
          rcases List.mem_cons.mp hpr with h | h
          · subst h
            exact hq (id, dep) (List.mem_cons_self _ _)
          · exact hres.1 pr h
        · intro fid hfid
          simp only [bfsFind, hdep, hfind, if_neg hdep] at hfid
          obtain ⟨pr, hpr, c, hc, hn2, hi2⟩ := hres.2 fid hfid
          refine ⟨pr, ?_, c, hc, hn2, hi2⟩
          simp only [bfsFind, hdep, hfind, if_neg hdep]
          exact List.mem_cons_of_mem _ hpr

/-- **C3 (counterexample).** In the chain `root → a1 → b2 → c3 → t4`
the only folder named `Deep Target` sits four levels below the parent
scope (no folder within three levels matches), yet `findFolderByName`
returns its identifier instead of null: the search name-matches the
children of depth-3 nodes, which lie at depth 4. -/
theorem bfsDepthCounterexample :
    findFolderByNameBFS exDrive "Deep Target" "root" 20 = some "t4"
  ∧ ((childrenOf exDrive "root" ++ childrenOf exDrive "a1" ++ childrenOf exDrive "b2").all
      (fun c => strToLower c.name != "deep target")) = true := by
  constructor
  · rfl
  · rfl

theorem bfsFind_skipAll (d : Drive) (tl : String) :
    ∀ (q : List (String × Nat)) (fuel : Nat), (∀ pr ∈ q, 3 < pr.2) →
      q.length + 1 ≤ fuel → bfsFind d tl fuel q = (none, []) := by
  intro q
  induction q with
  | nil =>
    intro fuel _ hf
    cases fuel with
    | zero => omega
    | succ f => rfl
  | cons pr rest ih =>
    intro fuel hq hf
    cases fuel with
    | zero => simp at hf
    | succ f =>
      obtain ⟨id, dep⟩ := pr
      have hdep : 3 < dep := hq (id, dep) (List.mem_cons_self _ _)
      rw [bfsFind, if_pos hdep]
      refine ih f (fun pr2 hpr2 => hq pr2 (List.mem_cons_of_mem _ hpr2)) ?_
      simp at hf
      omega

theorem levelsFrom_shift (d : Drive) (A : List String) :
    ∀ i : Nat, levelsFrom d (levelIds d A) i = levelsFrom d A (i + 1) := by
  intro i
  induction i with
  | zero => rfl
  | succ j ih => simp [levelsFrom, ih]

theorem bfsSpec_cons_none (d : Drive) (tl : String) (k : Nat) (id : String)
    (A2 B : List String)
    (hfind : (childrenOf d id).find? (fun c => strToLower c.name == tl) = none) :
    bfsSpec d tl (k + 1) (id :: A2) B
      = bfsSpec d tl (k + 1) A2 (B ++ (childrenOf d id).map (fun c => c.id)) := by
  conv_lhs => rw [bfsSpec]
  conv_rhs => rw [bfsSpec]
  simp only [scanLevel, hfind]
  cases hs : scanLevel d tl A2 with
  | some fid => rfl
  | none =>
    simp only
    congr 1
    simp [levelIds, List.append_assoc]

theorem bfsSpec_cons_none_zero (d : Drive) (tl : String) (id : String)
    (A2 B : List String)
    (hfind : (childrenOf d id).find? (fun c => strToLower c.name == tl) = none) :
    bfsSpec d tl 0 (id :: A2) B = bfsSpec d tl 0 A2 B := by
  conv_lhs => rw [bfsSpec]
  conv_rhs => rw [bfsSpec]
  simp only [scanLevel, hfind]

theorem bfsFind_eq_spec (d : Drive) (tl : String) :
    ∀ (k dep : Nat), dep + k = 3 →
    ∀ (A B : List String) (fuel : Nat), bfsSpecFuel d k A B ≤ fuel →
      (bfsFind d tl fuel
        (A.map (fun id => (id, dep)) ++ B.map (fun id => (id, dep + 1)))).1
      = bfsSpec d tl k A B := by
  intro k
  induction k with
  | zero =>
    intro dep hdep
    have hd3 : dep = 3 := by omega
    subst hd3
    intro A
    induction A with
    | nil =>
      intro B fuel hfuel
      have hf : B.length + 1 ≤ fuel := by simpa [bfsSpecFuel] using hfuel
      have hskip := bfsFind_skipAll d tl (B.map (fun id => (id, 3 + 1))) fuel
        (by simp) (by simpa using hf)
      simp only [List.map_nil, List.nil_append]
      rw [hskip]
      rw [bfsSpec]
      simp [scanLevel]
    | cons id A2 ihA =>
      intro B fuel hfuel
      have hf1 : (A2.length + 1) + B.length + 1 ≤ fuel := by
        simpa [bfsSpecFuel] using hfuel
      cases fuel with
      | zero => omega
      | succ f =>
        simp only [List.map_cons, List.cons_append]
        cases hfind : (childrenOf d id).find? (fun c => strToLower c.name == tl) with
        | some hit =>
          have hb : bfsFind d tl (f + 1)
              ((id, 3) :: (A2.map (fun id2 => (id2, 3)) ++ B.map (fun id2 => (id2, 3 + 1))))
              = (some hit.id, [(id, 3)]) := by
            rw [bfsFind]
            simp [hfind]
          rw [hb]
          conv_rhs => rw [bfsSpec]
          simp [scanLevel, hfind]
        | none =>
          have hb : (bfsFind d tl (f + 1)
              ((id, 3) :: (A2.map (fun id2 => (id2, 3)) ++ B.map (fun id2 => (id2, 3 + 1))))).1
              = (bfsFind d tl f
                (A2.map (fun id2 => (id2, 3)) ++ B.map (fun id2 => (id2, 3 + 1)))).1 := by
            rw [bfsFind]
            simp [hfind]
          rw [hb, ihA B f (by simp [bfsSpecFuel]; omega),
            bfsSpec_cons_none_zero d tl id A2 B hfind]
  | succ k2 ihk =>
    intro dep hdep
    have hdlt : dep < 3 := by omega
    intro A
    induction A with
    | nil =>
      intro B fuel hfuel
      have hf : bfsSpecFuel d k2 B [] ≤ fuel := by
        simpa [bfsSpecFuel, levelIds] using hfuel
      have h2 := ihk (dep + 1) (by omega) B [] fuel hf
      simp only [List.map_nil, List.nil_append, List.append_nil] at h2
      simp only [List.map_nil, List.nil_append]
      rw [h2]
      conv_rhs => rw [bfsSpec]
      simp [scanLevel, levelIds]
    | cons id A2 ihA =>
      intro B fuel hfuel
      have hf1 : (A2.length + 1) + bfsSpecFuel d k2 (B ++ levelIds d (id :: A2)) [] ≤ fuel := by
        simpa [bfsSpecFuel] using hfuel
      cases fuel with
      | zero => omega
      | succ f =>
        simp only [List.map_cons, List.cons_append]
        have hskip : ¬ 3 < dep := by omega
        cases hfind : (childrenOf d id).find? (fun c => strToLower c.name == tl) with
        | some hit =>
          have hb : bfsFind d tl (f + 1)
              ((id, dep) :: (A2.map (fun id2 => (id2, dep)) ++ B.map (fun id2 => (id2, dep + 1))))
              = (some hit.id, [(id, dep)]) := by
            rw [bfsFind]
            simp [hskip, hfind]
          rw [hb]
          conv_rhs => rw [bfsSpec]
          simp [scanLevel, hfind]
        | none =>
          have hq : (A2.map (fun id2 => (id2, dep)) ++ B.map (fun id2 => (id2, dep + 1)))
                ++ (childrenOf d id).map (fun c => (c.id, dep + 1))
              = A2.map (fun id2 => (id2, dep))
                ++ (B ++ (childrenOf d id).map (fun c => c.id)).map
                  (fun id2 => (id2, dep + 1)) := by
            simp [List.map_append, List.map_map, List.append_assoc, Function.comp]
          have hb : (bfsFind d tl (f + 1)
              ((id, dep) :: (A2.map (fun id2 => (id2, dep)) ++ B.map (fun id2 => (id2, dep + 1))))).1
              = (bfsFind d tl f
                (A2.map (fun id2 => (id2, dep))
                  ++ (B ++ (childrenOf d id).map (fun c => c.id)).map
                    (fun id2 => (id2, dep + 1)))).1 := by
            rw [bfsFind]
            simp only [hskip, if_false, hfind]
            rw [if_pos hdlt, hq]
          have hfA : bfsSpecFuel d (k2 + 1) A2 (B ++ (childrenOf d id).map (fun c => c.id)) ≤ f := by
            have he : (B ++ (childrenOf d id).map (fun c => c.id)) ++ levelIds d A2
                = B ++ levelIds d (id :: A2) := by
              simp [levelIds, List.append_assoc]
            simp only [bfsSpecFuel, he]
            omega
          rw [hb, ihA (B ++ (childrenOf d id).map (fun c => c.id)) f hfA,
            bfsSpec_cons_none d tl k2 id A2 B hfind]

theorem bfsSpec_none_iff (d : Drive) (tl : String) :
    ∀ (k : Nat) (A : List String),
      (bfsSpec d tl k A [] = none ↔
        ∀ i, i ≤ k → scanLevel d tl (levelsFrom d A i) = none) := by
  intro k
  induction k with
  | zero =>
    intro A
    conv_lhs => rw [bfsSpec]
    cases hs : scanLevel d tl A with
    | some fid =>
      constructor
      · intro h
        exact Option.noConfusion h
      · intro h
        have h0 := h 0 (Nat.le_refl 0)
        simp only [levelsFrom] at h0
        rw [hs] at h0
        exact Option.noConfusion h0
    | none =>
      simp only
      constructor
      · intro _ i hi
        have hi0 : i = 0 := by omega
        subst hi0
        simpa [levelsFrom] using hs
      · intro _
        trivial
  | succ k2 ihk =>
    intro A
    conv_lhs => rw [bfsSpec]
    cases hs : scanLevel d tl A with
    | some fid =>
      constructor
      · intro h
        exact Option.noConfusion h
      · intro h
        have h0 := h 0 (Nat.zero_le _)
        simp only [levelsFrom] at h0
        rw [hs] at h0
        exact Option.noConfusion h0
    | none =>
      simp only [List.nil_append]
      rw [ihk (levelIds d A)]
      constructor
      · intro h i hi
        cases i with
        | zero => simpa [levelsFrom] using hs
        | succ j =>
          have hj := h j (by omega)
          rw [levelsFrom_shift] at hj
          exact hj
      · intro h i hi
        rw [levelsFrom_shift]
        exact h (i + 1) (by omega)

/-- **C3 (amended).** The BFS of `findFolderByName` under a parent
scope lists the children only of folders at most 3 levels below the
parent, but it name-matches those children themselves, which lie up to
4 levels below: any identifier it returns is a matching child of a
listed node at depth ≤ 3 (soundness, first two conjuncts); moreover,
with fuel covering the bounded traversal, the search returns exactly
the first case-insensitive exact match in breadth-first (level) order
among the children of nodes at most 3 levels below the parent — the
declarative `bfsSpec` — and that specification returns null precisely
when no such match exists within those 4 levels (last two conjuncts).
A match exactly 4 levels down is returned, per the counterexample. -/
theorem bfsDepthBoundFirstMatch (d : Drive) (name parentFolderId : String) (fuel : Nat) :
    (∀ pr ∈ (bfsFind d (strToLower name) fuel [(parentFolderId, 0)]).2, pr.2 ≤ 3)
  ∧ (∀ fid, findFolderByNameBFS d name parentFolderId fuel = some fid →
      ∃ pr ∈ (bfsFind d (strToLower name) fuel [(parentFolderId, 0)]).2, pr.2 ≤ 3
        ∧ ∃ c ∈ childrenOf d pr.1, strToLower c.name = strToLower name ∧ c.id = fid)
  ∧ (name ≠ "" → bfsSpecFuel d 3 [parentFolderId] [] ≤ fuel →
      findFolderByNameBFS d name parentFolderId fuel
        = bfsSpec d (strToLower name) 3 [parentFolderId] [])
  ∧ (bfsSpec d (strToLower name) 3 [parentFolderId] [] = none ↔
      ∀ i, i ≤ 3 → scanLevel d (strToLower name) (levelsFrom d [parentFolderId] i) = none) := by
  have h := bfsFind_props d (strToLower name) fuel [(parentFolderId, 0)] (by simp)
  refine ⟨h.1, ?_, ?_, ?_⟩
  · intro fid hfid
    unfold findFolderByNameBFS at hfid
    by_cases hname : name == ""
    · simp [hname] at hfid
    · simp only [hname, Bool.false_eq_true, if_false] at hfid
      obtain ⟨pr, hpr, c, hc, hn2, hi2⟩ := h.2 fid hfid
      exact ⟨pr, hpr, h.1 pr hpr, c, hc, hn2, hi2⟩
  · intro hname hfuel
    unfold findFolderByNameBFS
    rw [if_neg (show ¬(name == "") = true by simpa using hname)]
    have h2 := bfsFind_eq_spec d (strToLower name) 3 0 (by omega) [parentFolderId] [] fuel hfuel
    simpa using h2
  · exact bfsSpec_none_iff d (strToLower name) 3 [parentFolderId]

/-- Witness for C3 (amended) on the concrete chain drive: the source
search equals the level-order specification, and both return the match
four levels below the parent. -/
theorem bfsDepthBoundFirstMatchWitness :
    findFolderByNameBFS exDrive "Deep Target" "root" 20
      = bfsSpec exDrive (strToLower "Deep Target") 3 ["root"] []
  ∧ bfsSpec exDrive (strToLower "Deep Target") 3 ["root"] [] = some "t4" := by
  constructor
  · exact (bfsDepthBoundFirstMatch exDrive "Deep Target" "root" 20).2.2.1
      (by decide) (by decide)
  · rfl

/-! ### C1 and C9: records removed before the working batch -/

theorem stage1_append (xs ys : List Participant) :
    stage1 (xs ++ ys) = stage1 xs ++ stage1 ys := by
  simp [stage1, List.filter_append]

theorem stage2_append (xs ys : List Participant) :
    stage2 (xs ++ ys) = stage2 xs ++ stage2 ys := by
  simp [stage2, stage1_append, List.filter_append]

theorem processParticipants_dropMid (env : Env) (w : WriteOracle)
    (xs ys : List Participant) (p : Participant) (h : stage2 [p] = []) :
    processParticipants env w (xs ++ p :: ys) = processParticipants env w (xs ++ ys) := by
  have h2 : stage2 (xs ++ p :: ys) = stage2 (xs ++ ys) := by
    have e1 : xs ++ p :: ys = xs ++ ([p] ++ ys) := by simp
    rw [e1, stage2_append, stage2_append, stage2_append, h, List.nil_append]
  unfold processParticipants stage3
  rw [h2]

/-- **C1.** A record whose `isShared` field equals `"true"`
case-insensitively at the start of the pass is removed by the
already-shared filter before the working batch is formed, so the
whole pass — outcomes, write-backs, permission checks, grant calls and
counters alike — is identical to the pass over the table without that
record: re-running over already-shared records issues no grant call
for them. -/
theorem isSharedTrueNoGrant (env : Env) (w : WriteOracle)
    (xs ys : List Participant) (p : Participant)
    (h : strToLower p.isShared = "true") :
    processParticipants env w (xs ++ p :: ys) = processParticipants env w (xs ++ ys) := by
  apply processParticipants_dropMid
  have hsh : (strToLower (normalizeP p).isShared != "true") = false := by
    have : (normalizeP p).isShared = p.isShared := rfl
    simp [this, h]
  by_cases hkeep : ((normalizeP p).nama != "" && (normalizeP p).email != "") = true
  · simp [stage2, stage1, List.filter_cons, hkeep, hsh]
  · simp [stage2, stage1, List.filter_cons, hkeep]

/-- Witness for C1: a pass over the single already-shared record
`pShared` equals the pass over the empty table. -/
theorem isSharedTrueNoGrantWitness :
    processParticipants envBase wAll [pShared] = processParticipants envBase wAll [] := by
  exact isSharedTrueNoGrant envBase wAll [] [] pShared rfl

/-- **C9.** A row whose name or email is empty after trimming is
removed during normalization, before the working batch is formed: the
whole pass — outcomes, write-backs, skip states and every counter — is
identical to the pass over the table without that row. -/
theorem emptyNameEmailFiltered (env : Env) (w : WriteOracle)
    (xs ys : List Participant) (p : Participant)
    (h : strTrim p.nama = "" ∨ strTrim p.email = "") :
    processParticipants env w (xs ++ p :: ys) = processParticipants env w (xs ++ ys) := by
  apply processParticipants_dropMid
  have hkeep : ((normalizeP p).nama != "" && (normalizeP p).email != "") = false := by
    have hn : (normalizeP p).nama = strTrim p.nama := rfl
    have he : (normalizeP p).email = strToLower (strTrim p.email) := rfl
    rcases h with h | h
    · simp [hn, h]
    · simp [he, h, strToLower]
  simp [stage2, stage1, List.filter_cons, hkeep]

/-- Witness for C9: a pass over the single blank-named record
`pEmptyName` equals the pass over the empty table. -/
theorem emptyNameEmailFilteredWitness :
    processParticipants envBase wAll [pEmptyName] = processParticipants envBase wAll [] := by
  exact emptyNameEmailFiltered envBase wAll [] [] pEmptyName (Or.inl rfl)

/-! ### C5: folder-not-found handling -/

/-- **C5 (counterexample).** A record whose folder resolution yields
nothing is written back and processing continues, but the outcome IS
counted in the `errors` counter (the source does `stats.errors++`),
contradicting the claim that the errors counter is not incremented:
one unresolved record yields `errors = 1`. -/
theorem folderNotFoundCountedAsError :
    (processParticipants envNoFolder wAll [pAlice]).stats.errors = 1
  ∧ (processParticipants envNoFolder wAll [pAlice]).outcomes =
      [(2, Outcome.folderNotFound)] := by
  constructor
  · rfl
  · rfl

/-- **C5 (amended).** When folder resolution yields no folder (no
cached id, resolver returns none) for a record that passed validation
and dedup, the record reaches the `FolderNotFound` outcome:
`isFolderExists=FALSE` and a `FOLDER NOT FOUND` log line are the only
write-backs, no permission check and no grant call are made,
processing continues with the next record, and — unlike the original
claim — the `errors` counter IS incremented for it. -/
theorem folderNotFoundBehavior (env : Env) (w : WriteOracle) (seen : List String)
    (p : Participant) (rest : List Participant)
    (hv : strContainsChar p.email '@' = true)
    (hd : seen.contains (dedupKey p.nama p.email) = false)
    (hsh : (p.isShared != "" && strToLower p.isShared == "true") = false)
    (hf : p.folderId = "")
    (hr : env.findFolder p.nama = none) :
    (stepParticipant env w seen p).1.outcome = Outcome.folderNotFound
  ∧ (stepParticipant env w seen p).1.updates.map cellVal =
      [(p.rowIndex, ColT.isFolderExistsCol, "FALSE"),
       (p.rowIndex, ColT.lastLogCol, "[" ++ env.ts ++ "] FOLDER NOT FOUND: " ++ p.nama)]
  ∧ (stepParticipant env w seen p).1.grants = []
  ∧ (stepParticipant env w seen p).1.permChecks = []
  ∧ (runLoop env w seen (p :: rest)).outcomes =
      (p.rowIndex, Outcome.folderNotFound) ::
        (runLoop env w (dedupKey p.nama p.email :: seen) rest).outcomes
  ∧ (runLoop env w seen (p :: rest)).stats.errors =
      (runLoop env w (dedupKey p.nama p.email :: seen) rest).stats.errors + 1 := by
  have hres : resolveFolder env p = (none, [p.nama]) := by
    simp [resolveFolder, hf, hr]
  have hd2 : dedupKey p.nama p.email ∉ seen := by simpa using hd
  have hstep : stepParticipant env w seen p =
      (⟨Outcome.folderNotFound,
        [updateCell w p.rowIndex .isFolderExistsCol "FALSE",
         updateCell w p.rowIndex .lastLogCol ("[" ++ env.ts ++ "] FOLDER NOT FOUND: " ++ p.nama)],
        [p.nama], [], []⟩, dedupKey p.nama p.email :: seen) := by
    simp [stepParticipant, hv, hd2, hsh, hres]
  refine ⟨by rw [hstep], by rw [hstep]; simp [updateCell, cellVal], by rw [hstep],
    by rw [hstep], ?_, ?_⟩
  · simp only [runLoop, stepSeen, hstep]
  · simp only [runLoop, stepSeen, hstep, statsOf, addStats]
    omega

/-- Witness for C5 (amended) on the concrete record `pAlice` with a
resolver that finds nothing. -/
theorem folderNotFoundBehaviorWitness :
    (stepParticipant envNoFolder wAll [] pAlice).1.outcome = Outcome.folderNotFound
  ∧ (stepParticipant envNoFolder wAll [] pAlice).1.updates.map cellVal =
      [(2, ColT.isFolderExistsCol, "FALSE"),
       (2, ColT.lastLogCol, "[TS] FOLDER NOT FOUND: Alice")]
  ∧ (runLoop envNoFolder wAll [] [pAlice]).stats.errors =
      (runLoop envNoFolder wAll [dedupKey "Alice" "alice@ex.com"] []).stats.errors + 1 := by
  have h := folderNotFoundBehavior envNoFolder wAll [] pAlice []
    rfl rfl rfl rfl rfl
  exact ⟨h.1, h.2.1, h.2.2.2.2.2⟩

/-! ### C7: simulation mode issues no provider call -/

/-- **C7.** In simulation mode `grantPermission` returns the
`DRY_RUN` sentinel without issuing any `drive.permissions.create`
call; a record that reaches the grant step in simulation mode ends in
the `Granted` outcome with no provider grant call recorded, and is
written back with `isShared=TRUE` and a `LastLog` entry tagged
`DRY_RUN`. -/
theorem dryRunNoProviderCall :
    (∀ (fileId email : String) (jitter : Nat → Nat) (attempts : Nat → Except ApiError Perm),
        grantPermission true fileId email jitter attempts =
          (Except.ok GrantOutcome.dryRunSentinel, 0))
  ∧ (∀ (env : Env) (w : WriteOracle) (seen : List String) (p : Participant) (fid : String),
        env.dryRun = true →
        strContainsChar p.email '@' = true →
        seen.contains (dedupKey p.nama p.email) = false →
        (p.isShared != "" && strToLower p.isShared == "true") = false →
        (resolveFolder env p).1 = some fid →
        env.hasPerm fid p.email = false →
        (stepParticipant env w seen p).1.outcome = Outcome.granted
      ∧ (stepParticipant env w seen p).1.grants = []
      ∧ (p.rowIndex, ColT.isSharedCol, "TRUE")
          ∈ (stepParticipant env w seen p).1.updates.map cellVal
      ∧ (p.rowIndex, ColT.lastLogCol, "[" ++ env.ts ++ "] DRY_RUN reader → " ++ p.email)
          ∈ (stepParticipant env w seen p).1.updates.map cellVal) := by
  constructor
  · intro fileId email jitter attempts
    simp [grantPermission]
  · intro env w seen p fid hdry hv hd hsh hres hperm
    have hd2 : dedupKey p.nama p.email ∉ seen := by simpa using hd
    rcases hrf : resolveFolder env p with ⟨o, rs⟩
    have ho : o = some fid := by rw [hrf] at hres; exact hres
    subst ho
    refine ⟨?_, ?_, ?_, ?_⟩ <;>
      simp [stepParticipant, hv, hd2, hsh, hrf, hperm, hdry, updateCell, cellVal]

/-- Witness for C7 on the concrete simulation-mode environment and
record `pAlice`. -/
theorem dryRunNoProviderCallWitness :
    (stepParticipant envDry wAll [] pAlice).1.outcome = Outcome.granted
  ∧ (stepParticipant envDry wAll [] pAlice).1.grants = []
  ∧ (2, ColT.isSharedCol, "TRUE") ∈ (stepParticipant envDry wAll [] pAlice).1.updates.map cellVal
  ∧ (2, ColT.lastLogCol, "[TS] DRY_RUN reader → alice@ex.com")
      ∈ (stepParticipant envDry wAll [] pAlice).1.updates.map cellVal := by
  exact dryRunNoProviderCall.2 envDry wAll [] pAlice "FID" rfl rfl rfl rfl rfl rfl

/-! ### C6: deduplication -/

theorem stepSeen_eq (env : Env) (w : WriteOracle) (seen : List String) (p : Participant) :
    stepSeen env w seen p =
      if strContainsChar p.email '@' = true then
        (if dedupKey p.nama p.email ∈ seen then seen
         else dedupKey p.nama p.email :: seen)
      else seen := by
  unfold stepSeen stepParticipant
  by_cases hv : strContainsChar p.email '@' = true
  · rw [if_pos hv, if_pos hv]
    by_cases hd : dedupKey p.nama p.email ∈ seen
    · rw [if_pos hd, if_pos (by simpa using hd)]
    · rw [if_neg hd, if_neg (by simpa using hd)]
      dsimp only
      split
      · rfl
      · split
        · rfl
        · split
          · rfl
          · split
            · rfl
            · split <;> rfl
  · rw [if_neg hv, if_neg hv]

theorem stepSeen_mem (env : Env) (w : WriteOracle) (seen : List String) (p : Participant)
    (k : String) :
    k ∈ stepSeen env w seen p ↔
      (k ∈ seen ∨ (strContainsChar p.email '@' = true ∧ dedupKey p.nama p.email = k)) := by
  rw [stepSeen_eq]
  by_cases hv : strContainsChar p.email '@' = true
  · rw [if_pos hv]
    by_cases hd : dedupKey p.nama p.email ∈ seen
    · rw [if_pos hd]
      constructor
      · exact fun h => Or.inl h
      · rintro (h | ⟨_, he⟩)
        · exact h
        · exact he ▸ hd
    · rw [if_neg hd]
      simp [List.mem_cons, hv, eq_comm, or_comm]
  · simp [hv]

theorem seenAfter_mem (env : Env) (w : WriteOracle) :
    ∀ (l : List Participant) (seen : List String) (k : String),
      k ∈ seenAfter env w seen l ↔
        (k ∈ seen ∨ ∃ p ∈ l, strContainsChar p.email '@' = true ∧ dedupKey p.nama p.email = k) := by
  intro l
  induction l with
  | nil =>
    intro seen k
    simp [seenAfter]
  | cons p rest ih =>
    intro seen k
    simp only [seenAfter]
    rw [ih, stepSeen_mem]
    simp only [List.exists_mem_cons_iff]
    tauto

theorem stepParticipant_dup (env : Env) (w : WriteOracle) (seen : List String)
    (p : Participant)
    (hv : strContainsChar p.email '@' = true)
    (hd : dedupKey p.nama p.email ∈ seen) :
    stepParticipant env w seen p =
      (⟨Outcome.skippedDuplicate,
        [updateCell w p.rowIndex .lastLogCol ("[" ++ env.ts ++ "] SKIP: Duplicate entry")],
        [], [], []⟩, seen) := by
  simp [stepParticipant, hv, hd]

theorem stepParticipant_notdup (env : Env) (w : WriteOracle) (seen : List String)
    (p : Participant) (hd : dedupKey p.nama p.email ∉ seen) :
    (stepParticipant env w seen p).1.outcome ≠ Outcome.skippedDuplicate := by
  unfold stepParticipant
  by_cases hv : strContainsChar p.email '@' = true
  · rw [if_pos hv, if_neg (by simpa using hd)]
    dsimp only
    split
    · simp
    · split
      · simp
      · split
        · simp
        · split
          · simp
          · split <;> simp
  · rw [if_neg hv]
    simp

theorem runLoop_outcomes_append (env : Env) (w : WriteOracle) :
    ∀ (xs ys : List Participant) (seen : List String),
      (runLoop env w seen (xs ++ ys)).outcomes =
        (runLoop env w seen xs).outcomes ++
          (runLoop env w (seenAfter env w seen xs) ys).outcomes := by
  intro xs
  induction xs with
  | nil =>
    intro ys seen
    simp [runLoop, seenAfter]
  | cons p rest ih =>
    intro ys seen
    simp only [List.cons_append, runLoop, seenAfter, List.append_eq]
    rw [ih]

/-- **C6 (counterexample).** Email validation runs before the
duplicate check, so two identical records whose shared email lacks an
at sign both resolve to `Skipped(invalid email)`: the later occurrence
is NOT `Skipped(duplicate)` as the claim states, and neither record is
processed past the duplicate check. -/
theorem duplicateInvalidEmailCounterexample :
    (processParticipants envBase wAll [pBad, pBad2]).outcomes =
      [(2, Outcome.skippedInvalidEmail), (3, Outcome.skippedInvalidEmail)]
  ∧ Outcome.skippedInvalidEmail ≠ Outcome.skippedDuplicate := by
  exact ⟨rfl, by decide⟩

/-- **C6 (amended).** For two records of the working batch with
identical lower-cased `(name, email)` keys *whose emails contain an at
sign* (records failing email validation are skipped as invalid before
the duplicate check), the later occurrence resolves to
`Skipped(duplicate)` with only the duplicate-entry log write-back and
no folder resolution, no permission check and no grant call; the pass
processes both in order, and the earlier occurrence — when no prior
record shares its key — is not `Skipped(duplicate)`, so exactly one
occurrence passes the duplicate check. -/
theorem dedupBehavior (env : Env) (w : WriteOracle) (xs ys zs : List Participant)
    (p q : Participant) (s1 s2 : List String)
    (hp : strContainsChar p.email '@' = true)
    (hq : strContainsChar q.email '@' = true)
    (hkey : dedupKey p.nama p.email = dedupKey q.nama q.email)
    (hs1 : s1 = seenAfter env w [] xs)
    (hs2 : s2 = seenAfter env w s1 (p :: ys)) :
    (stepParticipant env w s2 q).1.outcome = Outcome.skippedDuplicate
  ∧ (stepParticipant env w s2 q).1.resolves = []
  ∧ (stepParticipant env w s2 q).1.permChecks = []
  ∧ (stepParticipant env w s2 q).1.grants = []
  ∧ (stepParticipant env w s2 q).1.updates.map cellVal =
      [(q.rowIndex, ColT.lastLogCol, "[" ++ env.ts ++ "] SKIP: Duplicate entry")]
  ∧ (runLoop env w [] (xs ++ p :: (ys ++ q :: zs))).outcomes =
      (runLoop env w [] xs).outcomes
        ++ (p.rowIndex, (stepParticipant env w s1 p).1.outcome)
          :: ((runLoop env w (stepSeen env w s1 p) ys).outcomes
            ++ (q.rowIndex, Outcome.skippedDuplicate)
              :: (runLoop env w (stepSeen env w s2 q) zs).outcomes)
  ∧ ((¬ ∃ r ∈ xs, strContainsChar r.email '@' = true ∧
        dedupKey r.nama r.email = dedupKey p.nama p.email) →
      (stepParticipant env w s1 p).1.outcome ≠ Outcome.skippedDuplicate) := by
  subst hs1 hs2
  have hqmem : dedupKey q.nama q.email ∈
      seenAfter env w (seenAfter env w [] xs) (p :: ys) := by
    rw [seenAfter_mem]
    right
    exact ⟨p, List.mem_cons_self _ _, hp, hkey⟩
  have hdup := stepParticipant_dup env w _ q hq hqmem
  refine ⟨by rw [hdup], by rw [hdup], by rw [hdup], by rw [hdup],
    by rw [hdup]; simp [updateCell, cellVal], ?_, ?_⟩
  · rw [runLoop_outcomes_append env w xs (p :: (ys ++ q :: zs)) []]
    congr 1
    simp only [runLoop]
    congr 1
    rw [runLoop_outcomes_append env w ys (q :: zs) (stepSeen env w (seenAfter env w [] xs) p)]
    congr 1
    have hs2d : seenAfter env w (stepSeen env w (seenAfter env w [] xs) p) ys
        = seenAfter env w (seenAfter env w [] xs) (p :: ys) := rfl
    rw [hs2d]
    simp only [runLoop, hdup]
  · intro hnone
    apply stepParticipant_notdup
    rw [seenAfter_mem]
    simp only [List.not_mem_nil, false_or]
    exact hnone

/-- Witness for C6 (amended): the concrete duplicate `pAlice2`
following `pAlice` is skipped as a duplicate. -/
theorem dedupBehaviorWitness :
    (stepParticipant envBase wAll
        (seenAfter envBase wAll (seenAfter envBase wAll [] []) [pAlice]) pAlice2).1.outcome
      = Outcome.skippedDuplicate := by
  exact (dedupBehavior envBase wAll [] [] [] pAlice pAlice2 _ _ rfl rfl rfl rfl rfl).1

/-! ### C10: updateCell failures never influence the run -/

theorem stepParticipant_writeOracle (env : Env) (w1 w2 : WriteOracle)
    (seen : List String) (p : Participant) :
    (stepParticipant env w1 seen p).1.outcome = (stepParticipant env w2 seen p).1.outcome
  ∧ (stepParticipant env w1 seen p).1.updates.map cellVal =
      (stepParticipant env w2 seen p).1.updates.map cellVal
  ∧ (stepParticipant env w1 seen p).1.resolves = (stepParticipant env w2 seen p).1.resolves
  ∧ (stepParticipant env w1 seen p).1.permChecks = (stepParticipant env w2 seen p).1.permChecks
  ∧ (stepParticipant env w1 seen p).1.grants = (stepParticipant env w2 seen p).1.grants
  ∧ (stepParticipant env w1 seen p).2 = (stepParticipant env w2 seen p).2 := by
  unfold stepParticipant
  by_cases hv : strContainsChar p.email '@' = true
  · rw [if_pos hv, if_pos hv]
    by_cases hd : dedupKey p.nama p.email ∈ seen
    · rw [if_pos (show seen.contains (dedupKey p.nama p.email) = true by simpa using hd),
        if_pos (show seen.contains (dedupKey p.nama p.email) = true by simpa using hd)]
      simp [updateCell, cellVal]
    · rw [if_neg (show ¬seen.contains (dedupKey p.nama p.email) = true by simpa using hd),
        if_neg (show ¬seen.contains (dedupKey p.nama p.email) = true by simpa using hd)]
      dsimp only
      split
      · simp [updateCell, cellVal]
      · split
        · simp [updateCell, cellVal]
        · split
          · by_cases hfid : p.folderId = "" <;> simp [updateCell, cellVal, hfid]
          · split
            · by_cases hfid : p.folderId = "" <;> simp [updateCell, cellVal, hfid]
            · split <;> (by_cases hfid : p.folderId = "" <;> simp [updateCell, cellVal, hfid])
  · rw [if_neg hv, if_neg hv]
    simp [updateCell, cellVal]

theorem runLoop_writeOracle (env : Env) (w1 w2 : WriteOracle) :
    ∀ (l : List Participant) (seen : List String),
      (runLoop env w1 seen l).outcomes = (runLoop env w2 seen l).outcomes
    ∧ (runLoop env w1 seen l).updates.map cellVal = (runLoop env w2 seen l).updates.map cellVal
    ∧ (runLoop env w1 seen l).resolves = (runLoop env w2 seen l).resolves
    ∧ (runLoop env w1 seen l).permChecks = (runLoop env w2 seen l).permChecks
    ∧ (runLoop env w1 seen l).grants = (runLoop env w2 seen l).grants
    ∧ (runLoop env w1 seen l).stats = (runLoop env w2 seen l).stats := by
  intro l
  induction l with
  | nil =>
    intro seen
    simp [runLoop]
  | cons p rest ih =>
    intro seen
    have hstep := stepParticipant_writeOracle env w1 w2 seen p
    have hseen : (stepParticipant env w1 seen p).2 = (stepParticipant env w2 seen p).2 :=
      hstep.2.2.2.2.2
    have ihr := ih ((stepParticipant env w2 seen p).2)
    refine ⟨?_, ?_, ?_, ?_, ?_, ?_⟩ <;>
      simp only [runLoop, stepSeen, List.map_append] <;>
      rw [hseen] <;>
      simp [hstep.1, hstep.2.1, hstep.2.2.1, hstep.2.2.2.1, hstep.2.2.2.2.1,
        ihr.1, ihr.2.1, ihr.2.2.1, ihr.2.2.2.1, ihr.2.2.2.2.1, ihr.2.2.2.2.2]

/-- **C10.** `updateCell` never raises: a failed spreadsheet write is
caught and recorded only as an unapplied write attempt, so outcomes,
counters, grants, permission checks and resolver calls of a pass — and
the attempted write-backs themselves — are identical under any two
write-success oracles; concretely, a record's grant can succeed
(`Granted`, no error counted) while its durable `isShared=TRUE`
write-back silently fails. -/
theorem updateCellFailureIsolated :
    (∀ (env : Env) (w1 w2 : WriteOracle) (l : List Participant),
        (processParticipants env w1 l).outcomes = (processParticipants env w2 l).outcomes
      ∧ (processParticipants env w1 l).stats = (processParticipants env w2 l).stats
      ∧ (processParticipants env w1 l).grants = (processParticipants env w2 l).grants
      ∧ (processParticipants env w1 l).permChecks = (processParticipants env w2 l).permChecks
      ∧ (processParticipants env w1 l).resolves = (processParticipants env w2 l).resolves
      ∧ (processParticipants env w1 l).updates.map cellVal =
          (processParticipants env w2 l).updates.map cellVal)
  ∧ ((processParticipants envBase wNoShared [pAlice]).outcomes = [(2, Outcome.granted)]
    ∧ (processParticipants envBase wNoShared [pAlice]).stats.errors = 0
    ∧ CellUpdate.mk 2 ColT.isSharedCol "TRUE" false
        ∈ (processParticipants envBase wNoShared [pAlice]).updates) := by
  constructor
  · intro env w1 w2 l
    have h := runLoop_writeOracle env w1 w2 ((stage3 env l).take env.maxPerRun) []
    exact ⟨h.1, h.2.2.2.2.2, h.2.2.2.2.1, h.2.2.2.1, h.2.2.1, h.2.1⟩
  · exact ⟨rfl, rfl, by decide⟩

end CertShare
